import Mathlib

/-!
Verification of the Black-Scholes pricing app (`src/App.py`).

Shallow embedding of the quantitative core of the repository:

* `calculate_prices` embeds `BlackScholes.calculate_prices` (App.py lines
  77-93).  The Python method binds `K = self.strike` and uses `K` inside
  `d1`/`d2`, but the price lines 87-88 read the *module-global* variable
  `strike` (the sidebar input) instead of `K`; the embedding therefore takes
  that global as an explicit extra argument `gstrike`.
* `plot_heatmap_call` / `plot_heatmap_put` embed the surface computation of
  `plot_heatmap` (lines 132-148).
* `plot_account_equity_pls`, `cumsum` and `equityPath` embed the equity
  simulation of `plot_account_equity` (lines 172-182), with the random
  terminal prices of the simulated GBM paths abstracted into an input list.

`scipy.stats.norm.cdf` is embedded as `normalCdf`, the cumulative
distribution function of the standard normal law, defined as the integral of
the Gaussian density.
-/

open MeasureTheory Set
open ProbabilityTheory (gaussianPDFReal gaussianPDFReal_pos
  gaussianPDFReal_nonneg integrable_gaussianPDFReal
  integral_gaussianPDFReal_eq_one)

namespace BSApp

/-- The standard normal cumulative distribution function Φ, embedding
`scipy.stats.norm.cdf`: the integral of the standard Gaussian density over
`(-∞, x]`. -/
noncomputable def normalCdf (x : ℝ) : ℝ :=
  ∫ t in Set.Iic x, gaussianPDFReal 0 1 t

/-- The five constructor fields of the `BlackScholes` class (App.py 61-73). -/
structure ContractParameters where
  time_to_maturity : ℝ
  strike : ℝ
  current_price : ℝ
  volatility : ℝ
  risk_free_rate : ℝ

/-- The divisor `sigma * np.sqrt(t)` appearing in `d1` (App.py line 84). -/
noncomputable def d1_denominator (p : ContractParameters) : ℝ :=
  p.volatility * Real.sqrt p.time_to_maturity

/-- `d1` of App.py line 84, computed from the instance fields
(`K = self.strike`). -/
noncomputable def d1 (p : ContractParameters) : ℝ :=
  (Real.log (p.current_price / p.strike)
      + (p.risk_free_rate + p.volatility ^ 2 / 2) * p.time_to_maturity)
    / d1_denominator p

/-- `d2` of App.py line 85. -/
noncomputable def d2 (p : ContractParameters) : ℝ :=
  d1 p - p.volatility * Real.sqrt p.time_to_maturity

/-- Embedding of `BlackScholes.calculate_prices` (App.py 77-93), returning the
`(call_price, put_price)` pair.  `gstrike` is the module-global variable
`strike` that lines 87-88 of the source actually read in the discounting
terms (the local `K = self.strike` is only used inside `d1` and `d2`). -/
noncomputable def calculate_prices (p : ContractParameters) (gstrike : ℝ) :
    ℝ × ℝ :=
  let t := p.time_to_maturity
  let S := p.current_price
  let r := p.risk_free_rate
  let call_price :=
    S * normalCdf (d1 p) - gstrike * Real.exp (-(r * t)) * normalCdf (d2 p)
  let put_price :=
    gstrike * Real.exp (-(r * t)) * normalCdf (-(d2 p)) - S * normalCdf (-(d1 p))
  (call_price, put_price)

/-- The call-price formula exactly as the spec states it (spec §4.1):
`call = S·Φ(d1) − K·e^(−r·t)·Φ(d2)` with `K` the strike *field* of the
parameters passed to the call.  Stated from the spec's words, to be compared
with `calculate_prices`. -/
noncomputable def spec_call_price (p : ContractParameters) : ℝ :=
  p.current_price * normalCdf (d1 p)
    - p.strike * Real.exp (-(p.risk_free_rate * p.time_to_maturity))
        * normalCdf (d2 p)

/-- The put-price formula exactly as the spec states it (spec §4.1):
`put = K·e^(−r·t)·Φ(−d2) − S·Φ(−d1)` with `K` the strike field. -/
noncomputable def spec_put_price (p : ContractParameters) : ℝ :=
  p.strike * Real.exp (-(p.risk_free_rate * p.time_to_maturity))
      * normalCdf (-(d2 p))
    - p.current_price * normalCdf (-(d1 p))

/-- A `BlackScholes` instance together with the `call_price` / `put_price`
attributes that `calculate_prices` stores on `self` (App.py 90-91); `none`
before the first call. -/
structure BlackScholesObj where
  params : ContractParameters
  call_price : Option ℝ
  put_price : Option ℝ

/-- Stateful embedding of `calculate_prices`: the method mutates `self` by
storing the computed prices (App.py 90-91) and returns them (line 93). -/
noncomputable def calculate_prices_method (self : BlackScholesObj)
    (gstrike : ℝ) : BlackScholesObj × (ℝ × ℝ) :=
  let prices := calculate_prices self.params gstrike
  (⟨self.params, some prices.1, some prices.2⟩, prices)

/-- Embedding of the `call_prices` matrix built by `plot_heatmap`
(App.py 132-148): row `i` ranges over `vol_range`, column `j` over
`spot_range`, and each cell prices a fresh `BlackScholes` instance with
`strike` set to the *function argument* `strike_arg`, `current_price = spot`,
`volatility = vol`, and time/rate taken from `bs_model`, then subtracts the
module-global `market_call_quote`. -/
noncomputable def plot_heatmap_call (bs_model : ContractParameters)
    (spot_range vol_range : List ℝ)
    (strike_arg gstrike market_call_quote : ℝ) : List (List ℝ) :=
  vol_range.map fun vol => spot_range.map fun spot =>
    (calculate_prices
        ⟨bs_model.time_to_maturity, strike_arg, spot, vol,
          bs_model.risk_free_rate⟩ gstrike).1 - market_call_quote

/-- Embedding of the `put_prices` matrix built by `plot_heatmap`
(App.py 132-148). -/
noncomputable def plot_heatmap_put (bs_model : ContractParameters)
    (spot_range vol_range : List ℝ)
    (strike_arg gstrike market_put_quote : ℝ) : List (List ℝ) :=
  vol_range.map fun vol => spot_range.map fun spot =>
    (calculate_prices
        ⟨bs_model.time_to_maturity, strike_arg, spot, vol,
          bs_model.risk_free_rate⟩ gstrike).2 - market_put_quote

/-- The per-trial payoff list `pls` of `plot_account_equity` (App.py 173-178):
`premium = market_call_quote * amount_brought` and each trial appends
`max(terminal - current_price, 0) * amount_brought - premium`.  The random
terminal prices `path.simulated_path[-1]` of the simulated GBM paths are
abstracted into the input list `terminals`, one entry per trial. -/
def plot_account_equity_pls (terminals : List ℝ)
    (current_price amount_brought market_call_quote : ℝ) : List ℝ :=
  let premium := market_call_quote * amount_brought
  terminals.map fun terminal =>
    max (terminal - current_price) 0 * amount_brought - premium

/-- Running-sum helper: `cumsumAux acc xs` maps `xs` to its partial sums
starting from `acc`. -/
def cumsumAux (acc : ℝ) : List ℝ → List ℝ
  | [] => []
  | x :: xs => (acc + x) :: cumsumAux (acc + x) xs

/-- Embedding of `np.cumsum` on a one-dimensional array (App.py line 182). -/
def cumsum (xs : List ℝ) : List ℝ := cumsumAux 0 xs

/-- The plotted equity curve of `plot_account_equity` (App.py line 182):
`np.cumsum(pls)`. -/
def equityPath (terminals : List ℝ)
    (current_price amount_brought market_call_quote : ℝ) : List ℝ :=
  cumsum (plot_account_equity_pls terminals current_price amount_brought
    market_call_quote)

/-! ### Analytic facts about `normalCdf` -/

lemma integrableOn_gaussianPDFReal (s : Set ℝ) :
    IntegrableOn (gaussianPDFReal 0 1) s :=
  (integrable_gaussianPDFReal 0 1).integrableOn

lemma support_gaussianPDFReal : Function.support (gaussianPDFReal 0 1) = univ :=
  eq_univ_of_forall fun x =>
    Function.mem_support.mpr (gaussianPDFReal_pos 0 1 x one_ne_zero).ne'

lemma setIntegral_gaussianPDFReal_pos {s : Set ℝ} (hs : volume s ≠ 0) :
    0 < ∫ t in s, gaussianPDFReal 0 1 t := by
  rw [setIntegral_pos_iff_support_of_nonneg_ae
      (Filter.Eventually.of_forall fun x => gaussianPDFReal_nonneg 0 1 x)
      (integrableOn_gaussianPDFReal s)]
  rw [support_gaussianPDFReal, univ_inter]
  exact hs.bot_lt

/-- Φ is everywhere positive. -/
lemma normalCdf_pos (x : ℝ) : 0 < normalCdf x := by
  refine setIntegral_gaussianPDFReal_pos ?_
  simp [Real.volume_Iic]

/-- Φ is strictly increasing. -/
lemma normalCdf_strictMono : StrictMono normalCdf := by
  intro a b hab
  have hsplit : normalCdf b
      = normalCdf a + ∫ t in Ioc a b, gaussianPDFReal 0 1 t := by
    rw [normalCdf, normalCdf,
      ← setIntegral_union ((Iic_disjoint_Ioi le_rfl).mono_right
          Ioc_subset_Ioi_self) measurableSet_Ioc
        (integrableOn_gaussianPDFReal _) (integrableOn_gaussianPDFReal _),
      Iic_union_Ioc_eq_Iic hab.le]
  rw [hsplit, lt_add_iff_pos_right]
  refine setIntegral_gaussianPDFReal_pos ?_
  rw [Real.volume_Ioc]
  simp [hab]

/-- The total mass of the standard Gaussian is 1: `Φ(x) + ∫_{(x,∞)} pdf = 1`. -/
lemma normalCdf_add_integral_Ioi (x : ℝ) :
    normalCdf x + ∫ t in Ioi x, gaussianPDFReal 0 1 t = 1 := by
  rw [normalCdf,
    ← setIntegral_union (Iic_disjoint_Ioi le_rfl) measurableSet_Ioi
      (integrableOn_gaussianPDFReal _) (integrableOn_gaussianPDFReal _),
    Iic_union_Ioi, setIntegral_univ]
  exact integral_gaussianPDFReal_eq_one 0 one_ne_zero

/-- The standard Gaussian density is even. -/
lemma gaussianPDFReal_neg (t : ℝ) :
    gaussianPDFReal 0 1 (-t) = gaussianPDFReal 0 1 t := by
  simp [gaussianPDFReal, neg_sq]

/-- The complement identity `Φ(−x) = 1 − Φ(x)`. -/
lemma normalCdf_neg (x : ℝ) : normalCdf (-x) = 1 - normalCdf x := by
  have hcomp : (∫ t in Iic (-x), gaussianPDFReal 0 1 (-t))
      = ∫ t in Ioi x, gaussianPDFReal 0 1 t := by
    simpa using integral_comp_neg_Iic (-x) (gaussianPDFReal 0 1)
  have heven : (∫ t in Iic (-x), gaussianPDFReal 0 1 t)
      = ∫ t in Iic (-x), gaussianPDFReal 0 1 (-t) := by
    refine setIntegral_congr_fun measurableSet_Iic fun t _ => ?_
    exact (gaussianPDFReal_neg t).symm
  have := normalCdf_add_integral_Ioi x
  rw [normalCdf, heven, hcomp]
  linarith

/-- `Φ(d) + Φ(−d) = 1`; the identity behind put-call parity. -/
lemma normalCdf_add_normalCdf_neg (x : ℝ) :
    normalCdf x + normalCdf (-x) = 1 := by
  rw [normalCdf_neg]; ring

/-! ### Helper lemmas about the embedded operations -/

/-- Put-call parity as the code actually realises it: the strike appearing on
the right-hand side is the module-global `strike` read at App.py 87-88, not
the instance field. -/
lemma calculate_prices_parity (p : ContractParameters) (gstrike : ℝ) :
    (calculate_prices p gstrike).1 - (calculate_prices p gstrike).2
      = p.current_price
        - gstrike * Real.exp (-(p.risk_free_rate * p.time_to_maturity)) := by
  simp only [calculate_prices]
  linear_combination p.current_price * normalCdf_add_normalCdf_neg (d1 p)
    - gstrike * Real.exp (-(p.risk_free_rate * p.time_to_maturity))
        * normalCdf_add_normalCdf_neg (d2 p)

lemma cumsumAux_length (acc : ℝ) (xs : List ℝ) :
    (cumsumAux acc xs).length = xs.length := by
  induction xs generalizing acc with
  | nil => rfl
  | cons x xs ih => simp [cumsumAux, ih]

lemma cumsum_length (xs : List ℝ) : (cumsum xs).length = xs.length :=
  cumsumAux_length 0 xs

lemma cumsumAux_getElem (acc : ℝ) (xs : List ℝ) (k : ℕ)
    (hk : k < (cumsumAux acc xs).length) :
    (cumsumAux acc xs)[k] = acc + (xs.take (k + 1)).sum := by
  induction xs generalizing acc k with
  | nil => simp [cumsumAux] at hk
  | cons x xs ih =>
    cases k with
    | zero => simp [cumsumAux]
    | succ k =>
      have hk' : k < (cumsumAux (acc + x) xs).length := by
        simpa [cumsumAux] using hk
      calc (cumsumAux acc (x :: xs))[k + 1]
          = (cumsumAux (acc + x) xs)[k] := by simp [cumsumAux]
        _ = acc + x + (xs.take (k + 1)).sum := ih (acc + x) k hk'
        _ = acc + ((x :: xs).take (k + 1 + 1)).sum := by
              simp [List.take_succ_cons]; ring

lemma cumsum_getElem (xs : List ℝ) (k : ℕ) (hk : k < (cumsum xs).length) :
    (cumsum xs)[k] = (xs.take (k + 1)).sum := by
  simpa using cumsumAux_getElem 0 xs k hk

lemma cumsum_ne_nil (xs : List ℝ) (h : xs ≠ []) : cumsum xs ≠ [] := by
  intro hc
  apply h
  have hlen := cumsum_length xs
  rw [hc] at hlen
  exact List.length_eq_zero.mp hlen.symm

lemma cumsum_getLast? (xs : List ℝ) (h : xs ≠ []) :
    (cumsum xs).getLast? = some xs.sum := by
  have hne := cumsum_ne_nil xs h
  have hpos : 0 < xs.length := List.length_pos.mpr h
  have hidx : xs.length - 1 < (cumsum xs).length := by
    rw [cumsum_length]; omega
  rw [List.getLast?_eq_getLast_of_ne_nil hne, List.getLast_eq_getElem]
  have hlen1 : (cumsum xs).length - 1 = xs.length - 1 := by
    rw [cumsum_length]
  have : (cumsum xs)[(cumsum xs).length - 1] = (cumsum xs)[xs.length - 1] := by
    congr 1
  rw [this, cumsum_getElem xs (xs.length - 1) hidx]
  have htake : xs.length - 1 + 1 = xs.length := by omega
  rw [htake, List.take_length]

/-! ### Claim theorems -/

/-- C9: after every call to `calculate_prices`, the stored `call_price` and
`put_price` attributes equal exactly the two components of the returned pair
(App.py 90-93 store and return the same local variables). -/
theorem calculate_prices_stores_returned_prices (self : BlackScholesObj)
    (gstrike : ℝ) :
    (calculate_prices_method self gstrike).1.call_price
        = some (calculate_prices_method self gstrike).2.1
      ∧ (calculate_prices_method self gstrike).1.put_price
        = some (calculate_prices_method self gstrike).2.2 :=
  ⟨rfl, rfl⟩

/-- C7: the surface matrices built by `plot_heatmap` always have shape
`(len(vol_range), len(spot_range))`: `len(vol_range)` rows, each of length
`len(spot_range)`; in particular an empty axis yields an empty dimension and
the (total) computation raises no error. -/
theorem plot_heatmap_shape (bs : ContractParameters)
    (spot_range vol_range : List ℝ) (strike_arg gstrike mcq mpq : ℝ) :
    (plot_heatmap_call bs spot_range vol_range strike_arg gstrike mcq).length
        = vol_range.length
      ∧ (plot_heatmap_call bs spot_range vol_range strike_arg gstrike
            mcq).map List.length
          = List.replicate vol_range.length spot_range.length
      ∧ (plot_heatmap_put bs spot_range vol_range strike_arg gstrike
            mpq).length = vol_range.length
      ∧ (plot_heatmap_put bs spot_range vol_range strike_arg gstrike
            mpq).map List.length
          = List.replicate vol_range.length spot_range.length := by
  refine ⟨by simp [plot_heatmap_call], ?_, by simp [plot_heatmap_put], ?_⟩ <;>
    simp [plot_heatmap_call, plot_heatmap_put, List.map_map, Function.comp_def]

/-- C8: with zero trials the payoff list is empty and `np.cumsum` of an empty
list is the empty equity path; no error occurs. -/
theorem equityPath_of_no_trials
    (current_price amount_brought market_call_quote : ℝ) :
    equityPath [] current_price amount_brought market_call_quote = [] :=
  rfl

/-- C4: for any sequence of `N` simulated terminal prices the equity path has
length exactly `N`, its `k`-th element is the sum of the first `k + 1`
per-trial payoffs (each `max(terminal − current_price, 0) · amount −
market_call_quote · amount`), and its final element is the plain sum of all
`N` payoffs. -/
theorem plot_account_equity_path_spec (terminals : List ℝ)
    (current_price amount_brought market_call_quote : ℝ) :
    (equityPath terminals current_price amount_brought
        market_call_quote).length = terminals.length
    ∧ (∀ k (hk : k < (equityPath terminals current_price amount_brought
          market_call_quote).length),
        (equityPath terminals current_price amount_brought
            market_call_quote)[k]
          = ((plot_account_equity_pls terminals current_price amount_brought
              market_call_quote).take (k + 1)).sum)
    ∧ (terminals ≠ [] →
        (equityPath terminals current_price amount_brought
            market_call_quote).getLast?
          = some (plot_account_equity_pls terminals current_price
              amount_brought market_call_quote).sum) := by
  refine ⟨?_, ?_, ?_⟩
  · rw [equityPath, cumsum_length]
    simp [plot_account_equity_pls]
  · intro k hk
    exact cumsum_getElem _ k hk
  · intro h
    refine cumsum_getLast? _ ?_
    simp [plot_account_equity_pls, h]

/-- C4 witness: two trials with terminal prices `2` and `0`, spot `1`,
one option, market quote `1`: the path has length 2, starts at payoff `0`
and ends at the total sum `-1`. -/
theorem plot_account_equity_path_spec_witness :
    (equityPath [(2 : ℝ), 0] 1 1 1).length = 2
    ∧ (equityPath [(2 : ℝ), 0] 1 1 1).get
        ⟨0, by simp [equityPath, cumsum_length, plot_account_equity_pls]⟩
      = ((plot_account_equity_pls [(2 : ℝ), 0] 1 1 1).take 1).sum
    ∧ (equityPath [(2 : ℝ), 0] 1 1 1).getLast? = some (-1) := by
  have h := plot_account_equity_path_spec [(2 : ℝ), 0] 1 1 1
  refine ⟨h.1.trans rfl, ?_, (h.2.2 (by simp)).trans ?_⟩
  · simpa [List.get_eq_getElem] using h.2.1 0
      (by simp [equityPath, cumsum_length, plot_account_equity_pls])
  · norm_num [plot_account_equity_pls]

/-- C5: with `time_to_maturity = 0` or `volatility = 0` the divisor
`sigma * np.sqrt(t)` of `d1` is zero, so the unguarded computation of
`calculate_prices` performs a division by zero (the method contains no branch
that could intercept it). -/
theorem degenerate_inputs_divide_by_zero (p : ContractParameters)
    (h : p.time_to_maturity = 0 ∨ p.volatility = 0) :
    d1_denominator p = 0
    ∧ d1 p = (Real.log (p.current_price / p.strike)
        + (p.risk_free_rate + p.volatility ^ 2 / 2) * p.time_to_maturity)
          / 0 := by
  have hden : d1_denominator p = 0 := by
    rcases h with h | h
    · simp [d1_denominator, h]
    · simp [d1_denominator, h]
  exact ⟨hden, by rw [d1, hden]⟩

/-- C5 witness: zero time to maturity with otherwise valid parameters. -/
theorem degenerate_inputs_divide_by_zero_witness :
    d1_denominator ⟨0, 100, 100, 1 / 2, 1 / 20⟩ = 0
    ∧ d1 ⟨0, 100, 100, 1 / 2, 1 / 20⟩
      = (Real.log ((100 : ℝ) / 100) + (1 / 20 + (1 / 2 : ℝ) ^ 2 / 2) * 0)
          / 0 :=
  degenerate_inputs_divide_by_zero ⟨0, 100, 100, 1 / 2, 1 / 20⟩ (Or.inl rfl)

/-- C10: every per-trial payoff is at least `-premium =
-(market_call_quote · amount_brought)`, and hence every successive difference
of the cumulative equity path is at least `-premium`. -/
theorem payoff_bounded_below_by_premium (terminals : List ℝ)
    (current_price amount_brought market_call_quote : ℝ)
    (hamt : 0 < amount_brought) (hmcq : 0 < market_call_quote) :
    (∀ pl ∈ plot_account_equity_pls terminals current_price amount_brought
        market_call_quote, -(market_call_quote * amount_brought) ≤ pl)
    ∧ ∀ k (hk : k + 1 < (equityPath terminals current_price amount_brought
          market_call_quote).length),
        -(market_call_quote * amount_brought)
          ≤ (equityPath terminals current_price amount_brought
              market_call_quote)[k + 1]
            - (equityPath terminals current_price amount_brought
                market_call_quote)[k] := by
  have hmem : ∀ pl ∈ plot_account_equity_pls terminals current_price
      amount_brought market_call_quote,
      -(market_call_quote * amount_brought) ≤ pl := by
    intro pl hpl
    obtain ⟨terminal, -, rfl⟩ := List.mem_map.mp hpl
    have h0 : 0 ≤ max (terminal - current_price) 0 * amount_brought :=
      mul_nonneg (le_max_right _ _) hamt.le
    linarith
  refine ⟨hmem, fun k hk => ?_⟩
  set pls := plot_account_equity_pls terminals current_price amount_brought
    market_call_quote with hpls
  have hlen : k + 1 < pls.length := by
    simpa [equityPath, cumsum_length, hpls] using hk
  have h1 : (equityPath terminals current_price amount_brought
      market_call_quote)[k + 1] = (pls.take (k + 1 + 1)).sum :=
    cumsum_getElem _ (k + 1) hk
  have h2 : (equityPath terminals current_price amount_brought
      market_call_quote)[k] = (pls.take (k + 1)).sum :=
    cumsum_getElem _ k (Nat.lt_of_succ_lt hk)
  have h3 : (pls.take (k + 1 + 1)).sum = (pls.take (k + 1)).sum + pls[k + 1] :=
    List.sum_take_succ _ _ hlen
  have h4 := hmem pls[k + 1] (List.getElem_mem hlen)
  rw [h1, h2, h3]
  linarith

/-- C10 witness: one losing trial after one winning trial; the one-step drop
of the equity path is bounded by the premium `1`. -/
theorem payoff_bounded_below_by_premium_witness :
    -(1 * 1 : ℝ)
      ≤ (equityPath [(2 : ℝ), 0] 1 1 1).get
          ⟨1, by simp [equityPath, cumsum_length, plot_account_equity_pls]⟩
        - (equityPath [(2 : ℝ), 0] 1 1 1).get
          ⟨0, by simp [equityPath, cumsum_length, plot_account_equity_pls]⟩ := by
  simpa [List.get_eq_getElem] using
    (payoff_bounded_below_by_premium [(2 : ℝ), 0] 1 1 1 one_pos one_pos).2 0
      (by simp [equityPath, cumsum_length, plot_account_equity_pls])

/-- C1: the prices returned by `calculate_prices` do NOT follow the spec's
formulas with `K` the strike field of the instance.  With instance strike `1`
but module-global `strike = 2` (all other parameters valid: `t = S = σ = 1`,
`r = 0`), both returned prices differ from the spec formulas, because
App.py 87-88 discount the module-global `strike` instead of `K`. -/
theorem calculate_prices_uses_global_strike :
    (calculate_prices ⟨1, 1, 1, 1, 0⟩ 2).1 ≠ spec_call_price ⟨1, 1, 1, 1, 0⟩
    ∧ (calculate_prices ⟨1, 1, 1, 1, 0⟩ 2).2
      ≠ spec_put_price ⟨1, 1, 1, 1, 0⟩ := by
  have hd2 := normalCdf_pos (d2 ⟨1, 1, 1, 1, 0⟩)
  have hd2n := normalCdf_pos (-d2 ⟨1, 1, 1, 1, 0⟩)
  have hexp := Real.exp_pos (-((0 : ℝ) * 1))
  constructor
  · intro h
    simp only [calculate_prices, spec_call_price] at h
    nlinarith
  · intro h
    simp only [calculate_prices, spec_put_price] at h
    nlinarith

/-- C2: put-call parity in the form stated by the spec (`call − put =
S − K·e^{−rt}` with `K` the strike field) fails when the module-global
`strike` differs from the instance strike: at instance strike `1`, global
strike `2`, `t = S = σ = 1`, `r = 0`, the code gives `call − put = −1` while
the spec formula demands `0`, a discrepancy far above the 1e-9 tolerance. -/
theorem put_call_parity_violated_at_global_strike :
    (calculate_prices ⟨1, 1, 1, 1, 0⟩ 2).1
        - (calculate_prices ⟨1, 1, 1, 1, 0⟩ 2).2
      ≠ 1 - 1 * Real.exp (-((0 : ℝ) * 1)) := by
  rw [calculate_prices_parity]
  norm_num [Real.exp_zero]

/-- C6: the result of `calculate_prices` does not depend only on the five
constructor fields: holding all five fields fixed and changing only the
module-global `strike` (from `1` to `2`) changes the returned prices. -/
theorem calculate_prices_depends_on_global_strike :
    calculate_prices ⟨1, 1, 1, 1, 0⟩ 1 ≠ calculate_prices ⟨1, 1, 1, 1, 0⟩ 2 := by
  intro h
  have h1 := congrArg Prod.fst h
  simp only [calculate_prices] at h1
  have hd2 := normalCdf_pos (d2 ⟨1, 1, 1, 1, 0⟩)
  have hexp := Real.exp_pos (-((0 : ℝ) * 1))
  nlinarith

/-- C3 (amended): each heatmap cell `(i, j)` equals the Pricer's price at
`current_price = spot_range[j]`, `volatility = vol_range[i]`, with
time-to-maturity and rate from `bs_model` and strike equal to the `strike`
*argument* of `plot_heatmap`, minus the corresponding market quote. -/
theorem plot_heatmap_cell_formula (bs : ContractParameters)
    (spot_range vol_range : List ℝ) (strike_arg gstrike mcq mpq : ℝ)
    (i j : ℕ) (hi : i < vol_range.length) (hj : j < spot_range.length) :
    ((plot_heatmap_call bs spot_range vol_range strike_arg gstrike
          mcq)[i]?.getD [])[j]?.getD 0
        = (calculate_prices
            ⟨bs.time_to_maturity, strike_arg, spot_range[j], vol_range[i],
              bs.risk_free_rate⟩ gstrike).1 - mcq
    ∧ ((plot_heatmap_put bs spot_range vol_range strike_arg gstrike
          mpq)[i]?.getD [])[j]?.getD 0
        = (calculate_prices
            ⟨bs.time_to_maturity, strike_arg, spot_range[j], vol_range[i],
              bs.risk_free_rate⟩ gstrike).2 - mpq := by
  constructor <;>
    simp [plot_heatmap_call, plot_heatmap_put, List.getElem?_eq_getElem,
      hi, hj]

/-- C3 witness: a one-cell grid, evaluated at the only index pair. -/
theorem plot_heatmap_cell_formula_witness :
    ((plot_heatmap_call ⟨1, 1, 100, 1, 0⟩ [100] [1] 1 1 5)[0]?.getD
          [])[0]?.getD 0
        = (calculate_prices ⟨1, 1, 100, 1, 0⟩ 1).1 - 5
    ∧ ((plot_heatmap_put ⟨1, 1, 100, 1, 0⟩ [100] [1] 1 1 5)[0]?.getD
          [])[0]?.getD 0
        = (calculate_prices ⟨1, 1, 100, 1, 0⟩ 1).2 - 5 := by
  have h := plot_heatmap_cell_formula ⟨1, 1, 100, 1, 0⟩ [100] [1] 1 1 5 5 0 0
    (by simp) (by simp)
  simpa using h

/-- C3 counterexample: the cell does NOT in general use the base contract's
strike.  Base contract `⟨t = 1, strike = 1, S = 1, σ = 1, r = 0⟩`, one-cell
axes `spot = [1]`, `vol = [1]`, but `strike` argument `e`: the produced cell
prices at strike `e` (`d1 = −1/2`) whereas pricing at the base contract's
strike `1` gives `d1 = 1/2`, and Φ is strictly monotone. -/
theorem plot_heatmap_ignores_base_strike :
    (plot_heatmap_call ⟨1, 1, 1, 1, 0⟩ [1] [1] (Real.exp 1) 0
        0).headI.headI
      ≠ (calculate_prices ⟨1, 1, 1, 1, 0⟩ 0).1 - 0 := by
  have ha : d1 ⟨1, Real.exp 1, 1, 1, 0⟩ = -(1 / 2) := by
    simp only [d1, d1_denominator]
    rw [one_div, Real.log_inv, Real.log_exp]
    norm_num
  have hb : d1 ⟨1, 1, 1, 1, 0⟩ = 1 / 2 := by
    simp only [d1, d1_denominator]
    norm_num
  have hmono : normalCdf (d1 ⟨1, Real.exp 1, 1, 1, 0⟩)
      < normalCdf (d1 ⟨1, 1, 1, 1, 0⟩) := by
    apply normalCdf_strictMono
    rw [ha, hb]
    norm_num
  simp only [plot_heatmap_call, List.map_cons, List.map_nil, List.headI,
    calculate_prices]
  intro h
  rw [sub_zero, sub_zero] at h
  nlinarith [h, hmono]

end BSApp
